import Mathlib

/-!
# Verification of the dio database-versioning prototype

Shallow embedding of the core of `alexDtorres/dio`: a git-like server that
stores uploaded database files as content-addressed blobs, groups them in
trees, records revisions as commits, and keeps per-database branch tables
mapping branch names to head commit ids.

Modelling conventions:

* Go `string` / `[]byte` values are modelled as `List Char` (`GoStr`).
* The composite `hex.EncodeToString(sha256.Sum256(x))` is modelled as an
  abstract function parameter `hash : GoStr → GoStr`; no property of the
  digest (in particular no collision-freeness) is assumed anywhere.
* `time.Time` instants are modelled as `Nat`; the two Go textual renderings
  (`time.RFC3339`, `time.UnixDate`) are modelled as the decimal rendering of
  the instant — the exact text of the rendering is immaterial to the claims.
* The filesystem under `STORAGEDIR` is modelled as `Storage`: the `files/`
  directory is an association list from file name to file data, and the
  `meta/<db>/branchHeads` records form an association list from database
  name to branch table.  Commits and trees are persisted as JSON by the Go
  code (`json.MarshalIndent` / unmarshal); the model keeps the structured
  payload directly in the file entry, standing for that round-tripping
  encoding.
* A `WriteFile` (or `MkdirAll`+`WriteFile`) call that the Go code performs
  can fail; each store operation therefore takes a boolean saying whether
  its write succeeds, and returns `Except Unit`.  A store operation that
  performs no write cannot fail.
-/

/-- Go strings and byte slices, as lists of characters. -/
abbrev GoStr := List Char

/-- Embed a Lean string literal as a `GoStr`. -/
def strLit (s : String) : GoStr := s.data

/-- The NUL byte written by `bytes.Buffer.WriteByte(0)`. -/
def nulChar : Char := Char.ofNat 0

/-- Fueled helper for `natDigits`; any fuel at least the argument gives the
full decimal rendering. -/
def natDigitsAux : Nat → Nat → GoStr
  | 0, n => [Char.ofNat (48 + n % 10)]
  | fuel + 1, n =>
      if n < 10 then [Char.ofNat (48 + n)]
      else natDigitsAux fuel (n / 10) ++ [Char.ofNat (48 + n % 10)]

/-- Decimal rendering of a natural number, modelling Go `fmt.Sprintf("%d", n)`
for the non-negative sizes the code produces. -/
def natDigits (n : Nat) : GoStr := natDigitsAux n n

/-- Decidable equality for `Except` results. -/
instance {ε α : Type} [DecidableEq ε] [DecidableEq α] :
    DecidableEq (Except ε α) := fun x y =>
  match x, y with
  | .ok a, .ok b =>
      if h : a = b then isTrue (by rw [h])
      else isFalse (by intro hc; cases hc; exact h rfl)
  | .error a, .error b =>
      if h : a = b then isTrue (by rw [h])
      else isFalse (by intro hc; cases hc; exact h rfl)
  | .ok _, .error _ => isFalse (by intro hc; cases hc)
  | .error _, .ok _ => isFalse (by intro hc; cases hc)

/-- Modelled: Go `t.Format(time.RFC3339)`.  The instant is abstract (`Nat`)
and the rendering is its decimal form; the claims never depend on the
concrete RFC3339 text. -/
def timeFmtRFC3339 (t : Nat) : GoStr := natDigits t

/-- Modelled: Go `t.Format(time.UnixDate)`, same convention as
`timeFmtRFC3339`. -/
def timeFmtUnixDate (t : Nat) : GoStr := natDigits t

/-- Modelled from the spec: the entry-type tag for a database blob
(`DATABASE`, written into tree entries via `string(j.AType)`).  Its
declaration is not under `src/`; only its use is.  The concrete text of the
tag is immaterial. -/
def DATABASE : GoStr := strLit "db"

/-- Commit record (`commit` struct; its declaration is not under `src/`, the
fields are modelled from the spec §3 and from every use in
`src/api/backend.go` and the handlers).  Field defaults model Go zero
values. -/
structure commit where
  ID : GoStr := []
  Tree : GoStr := []
  Parent : GoStr := []
  AuthorName : GoStr := []
  AuthorEmail : GoStr := []
  CommitterName : GoStr := []
  CommitterEmail : GoStr := []
  Message : GoStr := []
  Timestamp : Nat := 0
deriving DecidableEq, Repr

/-- Tree entry (`dbTreeEntry` struct, modelled from the spec §3 and its uses).
`Last_Modified` holds the RFC3339 rendering of the modification instant,
which is exactly what the serialization consumes. -/
structure dbTreeEntry where
  AType : GoStr := []
  Sha256 : GoStr := []
  Name : GoStr := []
  Last_Modified : GoStr := []
  Size : Nat := 0
deriving DecidableEq, Repr

/-- Tree (`dbTree` struct, modelled from the spec §3 and its uses). -/
structure dbTree where
  ID : GoStr := []
  Entries : List dbTreeEntry := []
deriving DecidableEq, Repr

/-- Canonical commit serialization, exactly the buffer built by
`createCommitID` in `src/api/backend.go` lines 17–33: tree line, parent line
if the parent is non-empty, author line, committer line if the committer
email is non-empty, blank line, message, trailing NUL sentinel. -/
def serializeCommit (c : commit) : GoStr :=
  strLit "tree " ++ c.Tree ++ ['\n']
  ++ (if c.Parent ≠ [] then strLit "parent " ++ c.Parent ++ ['\n'] else [])
  ++ strLit "author " ++ c.AuthorName ++ strLit " <" ++ c.AuthorEmail
    ++ strLit "> " ++ timeFmtUnixDate c.Timestamp ++ ['\n']
  ++ (if c.CommitterEmail ≠ [] then
        strLit "committer " ++ c.CommitterName ++ strLit " <" ++ c.CommitterEmail
          ++ strLit "> " ++ timeFmtUnixDate c.Timestamp ++ ['\n']
      else [])
  ++ ['\n'] ++ c.Message ++ [nulChar]

/-- `createCommitID` (`src/api/backend.go` 17–33): digest of the canonical
commit serialization. -/
def createCommitID (hash : GoStr → GoStr) (c : commit) : GoStr :=
  hash (serializeCommit c)

/-- Serialization of one tree entry, as written by the loop body of
`createDBTreeID` (`src/api/backend.go` 38–53): type, sha, name, formatted
modification time — each NUL-terminated — then the decimal size and a
newline. -/
def serializeTreeEntry (e : dbTreeEntry) : GoStr :=
  e.AType ++ [nulChar] ++ e.Sha256 ++ [nulChar] ++ e.Name ++ [nulChar]
    ++ e.Last_Modified ++ [nulChar] ++ natDigits e.Size ++ ['\n']

/-- Concatenated serialization of an entry sequence (the whole buffer of
`createDBTreeID`). -/
def serializeTreeEntries (es : List dbTreeEntry) : GoStr :=
  (es.map serializeTreeEntry).flatten

/-- `createDBTreeID` (`src/api/backend.go` 38–53): digest of the entry
serialization. -/
def createDBTreeID (hash : GoStr → GoStr) (es : List dbTreeEntry) : GoStr :=
  hash (serializeTreeEntries es)

/-- Contents of a file under `STORAGEDIR/files`.  Commits and trees are
persisted as JSON; the model stores their structured payload, standing for
the JSON round-trip. -/
inductive FileData where
  | blob (content : GoStr)
  | commitData (c : commit)
  | treeData (t : dbTree)
deriving DecidableEq, Repr

/-- First-match association-list lookup (Go map indexing / file lookup by
name). -/
def lookupA {α : Type} : List (GoStr × α) → GoStr → Option α
  | [], _ => none
  | (k', v) :: rest, k => if k' = k then some v else lookupA rest k

/-- Association-list update: replace the binding of `k`, or append it (Go
map assignment / overwriting a file). -/
def setA {α : Type} : List (GoStr × α) → GoStr → α → List (GoStr × α)
  | [], k, v => [(k, v)]
  | (k', v') :: rest, k, v =>
      if k' = k then (k, v) :: rest else (k', v') :: setA rest k v

/-- The `files/` directory: file name → contents. -/
abbrev Files := List (GoStr × FileData)

/-- A database's branch table: branch name → head commit id
(`map[string]string`, persisted in `meta/<db>/branchHeads`). -/
abbrev BranchTable := List (GoStr × GoStr)

/-- Whole-store state: the `files/` area and the per-database
`meta/<db>/branchHeads` records. -/
structure Storage where
  files : Files := []
  meta : List (GoStr × BranchTable) := []
deriving DecidableEq, Repr

/-- On-disk size of a file, as consulted by `storeDatabase`'s `f.Size()`
check.  Commit and tree files are JSON renderings whose exact byte count the
model does not reproduce; their size is represented by the length of the
model serialization of the payload.  Only blob sizes are consulted by the
claims. -/
def fdSize : FileData → Nat
  | .blob content => content.length
  | .commitData c => (serializeCommit c).length
  | .treeData t => (serializeTreeEntries t.Entries).length

/-- `dbExists` (`src/api/backend.go` 56–65): a database "exists" iff a file
named after it is present under `files/` (a stat failure is treated as
absence). -/
def dbExists (files : Files) (dbName : GoStr) : Bool :=
  (lookupA files dbName).isSome

/-- `getBranches` (`src/api/backend.go` 68–80): read and decode
`meta/<db>/branchHeads`; a read failure (modelled: the record is absent)
yields an error (`none`). -/
def getBranches (st : Storage) (dbName : GoStr) : Option BranchTable :=
  lookupA st.meta dbName

/-- `storeBranches` (`src/api/backend.go` 83–107): write (overwrite) the
`branchHeads` record for the database; `okWrite` says whether the
`MkdirAll`/`WriteFile` calls succeed. -/
def storeBranches (okWrite : Bool) (st : Storage) (dbName : GoStr)
    (branches : BranchTable) : Except Unit Storage :=
  if okWrite then .ok { st with meta := setA st.meta dbName branches }
  else .error ()

/-- `storeCommit` (`src/api/backend.go` 110–122): write the commit under
`files/<c.ID>`. -/
def storeCommit (okWrite : Bool) (files : Files) (c : commit) :
    Except Unit Files :=
  if okWrite then .ok (setA files c.ID (.commitData c)) else .error ()

/-- `storeTree` (`src/api/backend.go` 159–171): write the tree under
`files/<t.ID>`. -/
def storeTree (okWrite : Bool) (files : Files) (t : dbTree) :
    Except Unit Files :=
  if okWrite then .ok (setA files t.ID (.treeData t)) else .error ()

/-- `storeDatabase` (`src/api/backend.go` 125–156): compute the content
digest; if no file of that name exists, write the blob there; if one exists,
rewrite it only when its size differs from the buffer being stored, and
otherwise skip the write entirely.  `okWrite` says whether a `WriteFile`
call, if one is attempted, succeeds; the skip path performs no write and
cannot fail. -/
def storeDatabase (hash : GoStr → GoStr) (okWrite : Bool) (files : Files)
    (db : GoStr) : Except Unit Files :=
  let sha := hash db
  match lookupA files sha with
  | none => if okWrite then .ok (setA files sha (.blob db)) else .error ()
  | some f =>
      if db.length ≠ fdSize f then
        if okWrite then .ok (setA files sha (.blob db)) else .error ()
      else .ok files

/-- `getCommit` — modelled from the spec: the commit store is the
content-addressed object area keyed by commit id (§6), so retrieving a
commit reads `files/<id>` and decodes it; a read or decode failure is an
error (`none`).  The function's declaration is not under `src/`; only its
caller `branchHistory` and its writer `storeCommit` are. -/
def getCommit (files : Files) (id : GoStr) : Option commit :=
  match lookupA files id with
  | some (.commitData c) => some c
  | _ => none

/-! ## Handlers (src/unnamed/part_001)

Each HTTP handler is modelled as a function of its request fields and the
storage state, returning the observable outcome (status/body) and the new
state.  Transport-level concerns (form parsing failure, header extraction)
are outside the model; a handler receives its already-extracted string
inputs. -/

/-- Outcome of the `branch_create` handler. -/
inductive BranchCreateResult where
  | badRequest
  | notFound
  | conflict
  | internalError
  | noContent
deriving DecidableEq, Repr

/-- `branchCreate` (`src/unnamed/part_001` 44–102): sanity-check the three
names, require the database to exist (per `dbExists`), load the branch
table, fail `notFound` when the from-branch is absent, `conflict` when the
new branch is present, and otherwise record the new branch pointing at the
from-branch's head. -/
def branchCreate (okWrite : Bool) (dbName fromBranch newBranch : GoStr)
    (st : Storage) : BranchCreateResult × Storage :=
  if dbName = [] ∨ fromBranch = [] ∨ newBranch = [] then (.badRequest, st)
  else if ¬ dbExists st.files dbName then (.notFound, st)
  else match getBranches st dbName with
    | none => (.internalError, st)
    | some branches =>
      match lookupA branches fromBranch with
      | none => (.notFound, st)
      | some fromId =>
        match lookupA branches newBranch with
        | some _ => (.conflict, st)
        | none =>
          match storeBranches okWrite st dbName (setA branches newBranch fromId) with
          | .error _ => (.internalError, st)
          | .ok st' => (.noContent, st')

/-- Outcome of the `branch_history` handler. -/
inductive HistoryResult where
  | badRequest
  | notFound
  | internalError
  | ok (hist : List commit)
deriving DecidableEq, Repr

/-- The commit-walking loop of `branchHistory` (`src/unnamed/part_001`
140–154): starting from an already-retrieved commit, follow `Parent` links,
appending each retrieved commit, until a commit with empty parent.  The Go
loop is unbounded; the model carries fuel, distinguishing a missing parent
commit (`.error .missingCommit`, the handler's 500 path) from fuel
exhaustion (`.error .outOfFuel`, which corresponds to the Go loop never
terminating on a cyclic parent chain). -/
inductive WalkStop where
  | missingCommit
  | outOfFuel
deriving DecidableEq, Repr

/-- Fueled parent walk; see `WalkStop`. -/
def walkHistory (files : Files) : Nat → commit → Except WalkStop (List commit)
  | fuel, c =>
    if c.Parent = [] then .ok [c]
    else
      match fuel with
      | 0 => .error .outOfFuel
      | fuel' + 1 =>
        match getCommit files c.Parent with
        | none => .error .missingCommit
        | some c' => (walkHistory files fuel' c').map (fun rest => c :: rest)

/-- `branchHistory` (`src/unnamed/part_001` 106–156): sanity-check the
names, require the database to exist (per `dbExists`), load the branch
table, fail `notFound` when the branch is absent, then walk the parent
chain from the head; any `getCommit` failure yields `internalError`.  The
result is `none` exactly when the Go loop would not terminate (cyclic
parent chain); the fuel `files.length + 1` is shown below to suffice for
every terminating chain. -/
def branchHistory (dbName branchName : GoStr) (st : Storage) :
    Option HistoryResult :=
  if dbName = [] ∨ branchName = [] then some .badRequest
  else if ¬ dbExists st.files dbName then some .notFound
  else match getBranches st dbName with
    | none => some .internalError
    | some branches =>
      match lookupA branches branchName with
      | none => some .notFound
      | some id =>
        match getCommit st.files id with
        | none => some .internalError
        | some c =>
          match walkHistory st.files (st.files.length + 1) c with
          | .ok hist => some (.ok hist)
          | .error .missingCommit => some .internalError
          | .error .outOfFuel => none

/-- Outcome of the `db_upload` handler.  The Go code answers 400, 500, or
201 Created (with a Location header); no commit id is returned in the
body. -/
inductive UploadResult where
  | badRequest
  | internalError
  | created
deriving DecidableEq, Repr

/-- The four durable-write steps of an upload, in the order the handler
attempts them. -/
inductive WStep where
  | wBlob
  | wTree
  | wCommit
  | wBranches
deriving DecidableEq, Repr

/-- Request fields consumed by `dbUpload`: the `Name` and `Branch` headers,
the request body, and the `time.Now()` instant observed during the call.
The handler reads no commit message, author, or committer from the
request. -/
structure UploadRequest where
  dbName : GoStr
  branch : GoStr
  body : GoStr
  now : Nat
deriving DecidableEq, Repr

/-- The single tree entry built for an upload (`src/unnamed/part_001`
214–220). -/
def uploadEntry (hash : GoStr → GoStr) (r : UploadRequest) : dbTreeEntry :=
  { AType := DATABASE
    Sha256 := hash r.body
    Name := r.dbName
    Last_Modified := timeFmtRFC3339 r.now
    Size := r.body.length }

/-- The single-entry tree built for an upload (`src/unnamed/part_001`
222–225). -/
def uploadTree (hash : GoStr → GoStr) (r : UploadRequest) : dbTree :=
  { ID := createDBTreeID hash [uploadEntry hash r]
    Entries := [uploadEntry hash r] }

/-- The commit skeleton built for an upload before parent/ID resolution
(`src/unnamed/part_001` 227–232): hard-coded author, no committer, no
message. -/
def uploadBaseCommit (hash : GoStr → GoStr) (r : UploadRequest) : commit :=
  { AuthorEmail := strLit "justin@postgresql.org"
    AuthorName := strLit "Justin Clift"
    Timestamp := r.now
    Tree := (uploadTree hash r).ID }

/-- The read-and-compute phase of `dbUpload` (`src/unnamed/part_001`
234–258): consult `dbExists`; on the existing-database path load the branch
table (read failure → error, the handler's 500), take the branch's current
head — if any — as the new commit's parent, and bind the branch to the new
commit id in the loaded table; on the new-database path build a parentless
commit and a fresh one-entry table. -/
def uploadCompute (hash : GoStr → GoStr) (r : UploadRequest) (st : Storage) :
    Except Unit (commit × BranchTable) :=
  if dbExists st.files r.dbName then
    match getBranches st r.dbName with
    | none => .error ()
    | some branches =>
      let c0 := uploadBaseCommit hash r
      let c1 := match lookupA branches r.branch with
                | some id => { c0 with Parent := id }
                | none => c0
      let c2 := { c1 with ID := createCommitID hash c1 }
      .ok (c2, setA branches r.branch c2.ID)
  else
    let c0 := uploadBaseCommit hash r
    let c2 := { c0 with ID := createCommitID hash c0 }
    .ok (c2, [(r.branch, c2.ID)])

/-- The persistence phase of `dbUpload` (`src/unnamed/part_001` 260–289):
store the blob, then the tree, then the commit, then the updated branch
table, stopping with a 500 at the first failing step.  The returned list
records the store steps attempted, in order. -/
def uploadPersist (hash : GoStr → GoStr) (oks : WStep → Bool)
    (r : UploadRequest) (st : Storage) (c : commit) (branches : BranchTable) :
    UploadResult × Storage × List WStep :=
  match storeDatabase hash (oks .wBlob) st.files r.body with
  | .error _ => (.internalError, st, [.wBlob])
  | .ok f1 =>
    match storeTree (oks .wTree) f1 (uploadTree hash r) with
    | .error _ => (.internalError, { st with files := f1 }, [.wBlob, .wTree])
    | .ok f2 =>
      match storeCommit (oks .wCommit) f2 c with
      | .error _ =>
          (.internalError, { st with files := f2 }, [.wBlob, .wTree, .wCommit])
      | .ok f3 =>
        match storeBranches (oks .wBranches) { st with files := f3 } r.dbName
            branches with
        | .error _ =>
            (.internalError, { st with files := f3 },
              [.wBlob, .wTree, .wCommit, .wBranches])
        | .ok st' => (.created, st', [.wBlob, .wTree, .wCommit, .wBranches])

/-- `dbUpload` (`src/unnamed/part_001` 191–298): reject a missing name or
branch header with 400 (the subsequent "default to master" assignment is
kept from the source, where it is unreachable), then run the compute phase
followed by the persistence phase. -/
def dbUpload (hash : GoStr → GoStr) (oks : WStep → Bool) (r : UploadRequest)
    (st : Storage) : UploadResult × Storage × List WStep :=
  if r.dbName = [] ∨ r.branch = [] then (.badRequest, st, [])
  else
    let branchName := if r.branch = [] then strLit "master" else r.branch
    let r' := { r with branch := branchName }
    match uploadCompute hash r' st with
    | .error _ => (.internalError, st, [])
    | .ok (c, branches) => uploadPersist hash oks r' st c branches

/-! ## Specification-side definitions

Definitions written from the spec's words rather than from the source, used
to compare the source behaviour against the spec (refinement claims), plus
the machinery needed to state injectivity of the tree serialization and
well-formedness of parent chains. -/

/-- The commit serialization exactly as claim C2 words it: tree line, parent
line only when a parent is present, author line, committer line only when
BOTH committer name and committer email are non-empty, blank line, message,
trailing sentinel byte. -/
def serializeCommitClaim (c : commit) : GoStr :=
  strLit "tree " ++ c.Tree ++ ['\n']
  ++ (if c.Parent ≠ [] then strLit "parent " ++ c.Parent ++ ['\n'] else [])
  ++ strLit "author " ++ c.AuthorName ++ strLit " <" ++ c.AuthorEmail
    ++ strLit "> " ++ timeFmtUnixDate c.Timestamp ++ ['\n']
  ++ (if c.CommitterName ≠ [] ∧ c.CommitterEmail ≠ [] then
        strLit "committer " ++ c.CommitterName ++ strLit " <" ++ c.CommitterEmail
          ++ strLit "> " ++ timeFmtUnixDate c.Timestamp ++ ['\n']
      else [])
  ++ ['\n'] ++ c.Message ++ [nulChar]

/-- The header lines of the amended canonical serialization: tree line,
parent line only when a parent is present, author line, committer line
exactly when the committer email is non-empty (the committer name is not
consulted). -/
def commitLines (c : commit) : List GoStr :=
  [strLit "tree " ++ c.Tree]
  ++ (if c.Parent = [] then [] else [strLit "parent " ++ c.Parent])
  ++ [strLit "author " ++ c.AuthorName ++ strLit " <" ++ c.AuthorEmail
        ++ strLit "> " ++ timeFmtUnixDate c.Timestamp]
  ++ (if c.CommitterEmail = [] then []
      else [strLit "committer " ++ c.CommitterName ++ strLit " <"
              ++ c.CommitterEmail ++ strLit "> " ++ timeFmtUnixDate c.Timestamp])

/-- The amended canonical serialization (claim C2 as corrected): the header
lines each followed by a newline, then a blank line, the message, and the
trailing sentinel byte. -/
def serializeCommitAmended (c : commit) : GoStr :=
  ((commitLines c).map (fun l => l ++ ['\n'])).flatten
    ++ ['\n'] ++ c.Message ++ [nulChar]

/-- Split a character list at its first occurrence of `sep`; `none` when
`sep` does not occur. -/
def splitAtChar (sep : Char) : GoStr → Option (GoStr × GoStr)
  | [] => none
  | ch :: rest =>
      if ch = sep then some ([], rest)
      else (splitAtChar sep rest).map (fun p => (ch :: p.1, p.2))

/-- Decimal digit value of a character, when it is one. -/
def charToDigit? (ch : Char) : Option Nat :=
  if ch = '0' then some 0 else if ch = '1' then some 1
  else if ch = '2' then some 2 else if ch = '3' then some 3
  else if ch = '4' then some 4 else if ch = '5' then some 5
  else if ch = '6' then some 6 else if ch = '7' then some 7
  else if ch = '8' then some 8 else if ch = '9' then some 9 else none

/-- Value of a digit string (most significant first); `none` on a non-digit
or on the empty string. -/
def digitsToNat? (s : GoStr) : Option Nat :=
  match s with
  | [] => none
  | _ :: _ =>
      s.foldl (fun acc ch => acc.bind (fun a =>
        (charToDigit? ch).map (fun d => 10 * a + d))) (some 0)

/-- Parse back one tree entry from the front of a serialized entry
sequence, returning it with the unconsumed remainder. -/
def parseTreeEntry (s : GoStr) : Option (dbTreeEntry × GoStr) := do
  let (a, s1) ← splitAtChar nulChar s
  let (sha, s2) ← splitAtChar nulChar s1
  let (nm, s3) ← splitAtChar nulChar s2
  let (tm, s4) ← splitAtChar nulChar s3
  let (dg, s5) ← splitAtChar '\n' s4
  let sz ← digitsToNat? dg
  pure ({ AType := a, Sha256 := sha, Name := nm, Last_Modified := tm,
          Size := sz }, s5)

/-- Parse back a whole serialized entry sequence (fueled; the fuel only
needs to dominate the number of entries). -/
def parseTreeEntries : Nat → GoStr → Option (List dbTreeEntry)
  | 0, s => if s = [] then some [] else none
  | fuel + 1, s =>
      if s = [] then some []
      else
        match parseTreeEntry s with
        | none => none
        | some (e, rest) =>
            (parseTreeEntries fuel rest).map (fun es => e :: es)

/-- All four string fields of a tree entry are free of the NUL separator
byte. -/
def entryNulFree (e : dbTreeEntry) : Prop :=
  nulChar ∉ e.AType ∧ nulChar ∉ e.Sha256 ∧ nulChar ∉ e.Name
    ∧ nulChar ∉ e.Last_Modified

instance (e : dbTreeEntry) : Decidable (entryNulFree e) := by
  unfold entryNulFree; infer_instance

/-- The parent chain rooted at a commit: `Chain files c hist` holds when
`hist` is the head-first commit list obtained from `c` by following
`Parent` links through `getCommit` until a commit with no parent — the
walk that claim C6 describes. -/
inductive Chain (files : Files) : commit → List commit → Prop
  | root (c : commit) : c.Parent = [] → Chain files c [c]
  | step (c c' : commit) (rest : List commit) : c.Parent ≠ [] →
      getCommit files c.Parent = some c' → Chain files c' rest →
      Chain files c (c :: rest)

/-! ## Concrete scenario values

Fixed inputs used by the closed theorems below.  `hashId` is a concrete
instantiation of the abstract digest parameter (counterexamples and
witnesses may pick any digest function, since the development assumes
nothing about it); `hashConst` is a digest with collisions, used to
exercise behaviour on colliding inputs. -/

/-- A concrete digest instantiation (injective). -/
def hashId : GoStr → GoStr := fun s => s

/-- A concrete digest instantiation with collisions. -/
def hashConst : GoStr → GoStr := fun _ => strLit "H"

/-- All durable writes succeed. -/
def oksAll : WStep → Bool := fun _ => true

/-- First upload request: database `a.db`, branch `master`, body `x`. -/
def uploadReq1 : UploadRequest :=
  { dbName := strLit "a.db", branch := strLit "master",
    body := strLit "x", now := 0 }

/-- Second upload request to the same database and branch. -/
def uploadReq2 : UploadRequest :=
  { dbName := strLit "a.db", branch := strLit "master",
    body := strLit "y", now := 1 }

/-- State after the first upload into an empty store. -/
def stAfter1 : Storage := (dbUpload hashId oksAll uploadReq1 {}).2.1

/-- Head of `master` for `a.db` after the first upload. -/
def headAfter1 : Option GoStr :=
  (getBranches stAfter1 (strLit "a.db")).bind
    (fun t => lookupA t (strLit "master"))

/-- State after the second (sequential) upload. -/
def stAfter2 : Storage := (dbUpload hashId oksAll uploadReq2 stAfter1).2.1

/-- Head of `master` for `a.db` after the second upload. -/
def headAfter2 : Option GoStr :=
  (getBranches stAfter2 (strLit "a.db")).bind
    (fun t => lookupA t (strLit "master"))

/-- The commit the head points at after the second upload. -/
def headCommit2 : Option commit :=
  headAfter2.bind (fun id => getCommit stAfter2.files id)

/-- A commit with an empty committer name but a non-empty committer email
(the remaining fields are Go zero values). -/
def commitC2 : commit :=
  { Tree := strLit "t", CommitterName := [], CommitterEmail := strLit "e" }

/-- Entry whose `Name` field contains a NUL byte. -/
def treeEntryShift1 : dbTreeEntry :=
  { AType := strLit "a", Sha256 := strLit "s",
    Name := strLit "n" ++ nulChar :: strLit "m",
    Last_Modified := strLit "t", Size := 1 }

/-- Entry whose `Sha256` field contains a NUL byte, arranged to serialize to
the same bytes as `treeEntryShift1`. -/
def treeEntryShift2 : dbTreeEntry :=
  { AType := strLit "a", Sha256 := strLit "s" ++ nulChar :: strLit "n",
    Name := strLit "m", Last_Modified := strLit "t", Size := 1 }

/-- A store whose branch table already holds heads for `a.db` (while no
file named `a.db` is under `files/`). -/
def stPriorMeta : Storage :=
  { files := [], meta := [(strLit "a.db", [(strLit "dev", strLit "Z")])] }

/-- The root commit minted by `uploadReq1` under `hashId`. -/
def c10Commit : commit :=
  { uploadBaseCommit hashId uploadReq1 with
      ID := createCommitID hashId (uploadBaseCommit hashId uploadReq1) }

/-- A store where `a.db` passes `dbExists` and `master` points at a commit
id that is absent from the object store. -/
def stDangling : Storage :=
  { files := [(strLit "a.db", .blob [])],
    meta := [(strLit "a.db", [(strLit "master", strLit "X")])] }

/-- A parentless commit stored under id `c1`. -/
def c6Commit : commit := { ID := strLit "c1", Tree := strLit "t" }

/-- A store where `a.db` passes `dbExists` and `master` points at the
stored parentless commit `c6Commit`. -/
def stHealthy : Storage :=
  { files := [(strLit "a.db", .blob []), (strLit "c1", .commitData c6Commit)],
    meta := [(strLit "a.db", [(strLit "master", strLit "c1")])] }

/-- Interleaved-run outcome of the first of two concurrent uploads: both
requests run their read-and-compute phase against the initial empty store
before either persists (the server handles requests on concurrent
goroutines with no locking, so this interleaving is schedulable); the first
request then persists. -/
def c9out1 : UploadResult × Storage × List WStep :=
  match uploadCompute hashId uploadReq1 {} with
  | .ok (c, bs) => uploadPersist hashId oksAll uploadReq1 {} c bs
  | .error _ => (.internalError, {}, [])

/-- Outcome of the second concurrent upload: its plan was computed against
the initial store, and it persists after the first upload did. -/
def c9out2 : UploadResult × Storage × List WStep :=
  match uploadCompute hashId uploadReq2 {} with
  | .ok (c, bs) => uploadPersist hashId oksAll uploadReq2 c9out1.2.1 c bs
  | .error _ => (.internalError, c9out1.2.1, [])

/-- The commit minted by the first interleaved upload. -/
def c9commit1 : commit :=
  match uploadCompute hashId uploadReq1 {} with
  | .ok (c, _) => c
  | .error _ => {}

/-- The commit minted by the second interleaved upload. -/
def c9commit2 : commit :=
  match uploadCompute hashId uploadReq2 {} with
  | .ok (c, _) => c
  | .error _ => {}

/-- Head of `master` for `a.db` after both interleaved uploads finished. -/
def c9finalHead : Option GoStr :=
  (getBranches c9out2.2.1 (strLit "a.db")).bind
    (fun t => lookupA t (strLit "master"))

/-- The parent-chain history from the final head after the interleaved
run. -/
def c9finalHist : Option (List commit) :=
  c9finalHead.bind (fun id => (getCommit c9out2.2.1.files id).bind
    (fun c => (walkHistory c9out2.2.1.files (c9out2.2.1.files.length + 1)
                c).toOption))

/-- The file names the history walk looks up while consuming a chain: the
`Parent` of every commit in the list except the last (root) one. -/
def chainKeys : List commit → List GoStr
  | [] => []
  | c :: rest =>
      match rest with
      | [] => []
      | _ :: _ => c.Parent :: chainKeys rest

/-- A NUL-free tree entry. -/
def treeEntryPlainA : dbTreeEntry :=
  { AType := strLit "db", Sha256 := strLit "s1", Name := strLit "a.db",
    Last_Modified := strLit "t1", Size := 3 }

/-- Another NUL-free tree entry, different from `treeEntryPlainA`. -/
def treeEntryPlainB : dbTreeEntry :=
  { AType := strLit "db", Sha256 := strLit "s2", Name := strLit "b.db",
    Last_Modified := strLit "t2", Size := 4 }

/-! ## Helper lemmas -/

theorem lookupA_setA_self {α : Type} (l : List (GoStr × α)) (k : GoStr) (v : α) :
    lookupA (setA l k v) k = some v := by
  induction l with
  | nil => simp [setA, lookupA]
  | cons hd tl ih =>
    obtain ⟨k', v'⟩ := hd
    by_cases h : k' = k
    · simp [setA, h, lookupA]
    · simp [setA, h, lookupA, ih]

theorem lookupA_setA_ne {α : Type} (l : List (GoStr × α)) (k k' : GoStr)
    (v : α) (h : k' ≠ k) : lookupA (setA l k v) k' = lookupA l k' := by
  induction l with
  | nil => simp [setA, lookupA, Ne.symm h]
  | cons hd tl ih =>
    obtain ⟨k'', v''⟩ := hd
    by_cases hk : k'' = k
    · subst hk
      simp [setA, lookupA, Ne.symm h]
    · simp [setA, hk, lookupA, ih]

theorem lookupA_some_mem_keys {α : Type} (l : List (GoStr × α)) (k : GoStr)
    (v : α) (h : lookupA l k = some v) : k ∈ l.map Prod.fst := by
  induction l with
  | nil => simp [lookupA] at h
  | cons hd tl ih =>
    obtain ⟨k', v'⟩ := hd
    by_cases hk : k' = k
    · subst hk
      simp only [List.map_cons]
      exact List.mem_cons_self _ _
    · simp only [lookupA, if_neg hk] at h
      simp only [List.map_cons]
      exact List.mem_cons_of_mem _ (ih h)

/-! ## Claim C1 -/

/-- C1 (refuted by the code): even after a first successful upload gave
`a.db`'s `master` branch a head, a second upload to the same database and
branch mints a commit whose parent is EMPTY (not the prior head): the
handler decides database existence by looking for a file named `a.db` under
`files/`, which uploads never create, so it takes the new-database path. -/
theorem c1_subsequentUploadOrphansPriorHead :
    (dbUpload hashId oksAll uploadReq1 ({} : Storage)).1 = .created ∧
    (dbUpload hashId oksAll uploadReq2 stAfter1).1 = .created ∧
    headAfter1.isSome ∧
    headCommit2.map commit.Parent = some [] ∧
    headCommit2.map commit.Parent ≠ headAfter1 := by decide

/-! ## Claim C2 -/

/-- C2 (counterexample): for a commit with an empty committer name but a
non-empty committer email, the commit identifier is NOT the digest of the
serialization the claim describes (committer line only when both committer
fields are non-empty): the code keys the committer line on the email
alone.  The digest is instantiated with the concrete function `hashId`. -/
theorem c2_counterexample :
    createCommitID hashId commitC2 ≠ hashId (serializeCommitClaim commitC2) ∧
    serializeCommit commitC2 ≠ serializeCommitClaim commitC2 := by decide

/-- C2 (amended): for every digest function and every commit, the commit
identifier is the digest of the canonical serialization built in this exact
order — tree line, parent line only when a parent is present, author line,
committer line exactly when the committer email is non-empty, blank line,
message, trailing sentinel byte; being a pure function of the fields, two
commits with identical field values (timestamp included) get the same
identifier. -/
theorem c2_commitIdIsCanonicalDigest (hash : GoStr → GoStr) (c : commit) :
    createCommitID hash c = hash (serializeCommitAmended c) := by
  unfold createCommitID serializeCommit serializeCommitAmended commitLines
  congr 1
  by_cases hp : c.Parent = [] <;> by_cases hce : c.CommitterEmail = [] <;>
    simp [hp, hce, List.append_assoc]

/-! ## Claim C3 -/

/-- C3 (refuted by the code, which its own comments flag): `storeDatabase`
decides to skip a write by comparing sizes only.  For ANY digest function:
if a different blob of the same length collides on the digest with an
already-stored blob, storing it is a silent no-op that keeps the first
blob — the second content is merged into the first, violating dedup by
identity. -/
theorem c3_storeDatabaseDedupsBySize (hash : GoStr → GoStr) (files : Files)
    (b1 b2 : GoStr) (hne : b1 ≠ b2) (hlen : b1.length = b2.length)
    (hcol : hash b1 = hash b2) (habsent : lookupA files (hash b1) = none) :
    storeDatabase hash true files b1
      = .ok (setA files (hash b1) (.blob b1)) ∧
    storeDatabase hash true (setA files (hash b1) (.blob b1)) b2
      = .ok (setA files (hash b1) (.blob b1)) := by
  constructor
  · unfold storeDatabase
    simp [habsent]
  · unfold storeDatabase
    rw [← hcol]
    simp [lookupA_setA_self, fdSize, hlen]

/-- Witness for `c3_storeDatabaseDedupsBySize` at a concrete colliding
digest: blobs `"a"` and `"b"` differ, have equal length, and the second
store is the silent no-op keeping `"a"`. -/
theorem c3_storeDatabaseDedupsBySize_witness :
    strLit "a" ≠ strLit "b" ∧
    storeDatabase hashConst true
        (setA [] (hashConst (strLit "a")) (.blob (strLit "a"))) (strLit "b")
      = .ok (setA [] (hashConst (strLit "a")) (.blob (strLit "a"))) :=
  ⟨by decide,
    (c3_storeDatabaseDedupsBySize hashConst [] (strLit "a") (strLit "b")
      (by decide) (by decide) (by decide) (by decide)).2⟩

/-! ## Claim C4 -/

/-- C4: on a database that passes the handler's existence check and whose
branch table loads, `branch_create` fails `notFound` when the from-branch
is absent, fails `conflict` when the new branch name is present, and
otherwise succeeds with the new branch bound to exactly the commit id the
from-branch pointed at when the call ran (state otherwise only gaining
that binding in this database's table). -/
theorem c4_branchCreateForkRule (st : Storage) (db fromB newB : GoStr)
    (tbl : BranchTable) (hdb : db ≠ []) (hfrom : fromB ≠ []) (hnew : newB ≠ [])
    (hex : dbExists st.files db = true) (htbl : getBranches st db = some tbl) :
    (lookupA tbl fromB = none →
        branchCreate true db fromB newB st = (.notFound, st)) ∧
    (∀ fid x, lookupA tbl fromB = some fid → lookupA tbl newB = some x →
        branchCreate true db fromB newB st = (.conflict, st)) ∧
    (∀ fid, lookupA tbl fromB = some fid → lookupA tbl newB = none →
        branchCreate true db fromB newB st
          = (.noContent,
              { st with meta := setA st.meta db (setA tbl newB fid) }) ∧
        getBranches
            { st with meta := setA st.meta db (setA tbl newB fid) } db
          = some (setA tbl newB fid) ∧
        lookupA (setA tbl newB fid) newB = some fid) := by
  refine ⟨?_, ?_, ?_⟩
  · intro hmiss
    unfold branchCreate
    simp [hdb, hfrom, hnew, hex, htbl, hmiss]
  · intro fid x hfid hx
    unfold branchCreate
    simp [hdb, hfrom, hnew, hex, htbl, hfid, hx]
  · intro fid hfid hmiss
    refine ⟨?_, ?_, lookupA_setA_self _ _ _⟩
    · unfold branchCreate
      simp [hdb, hfrom, hnew, hex, htbl, hfid, hmiss, storeBranches]
    · unfold getBranches
      exact lookupA_setA_self _ _ _

/-- Witness for `c4_branchCreateForkRule`: forking `dev` from `master` in a
concrete store records `dev` at `master`'s head `X`. -/
theorem c4_branchCreateForkRule_witness :
    branchCreate true (strLit "a.db") (strLit "master") (strLit "dev")
        stDangling
      = (.noContent,
          { stDangling with
              meta := setA stDangling.meta (strLit "a.db")
                (setA [(strLit "master", strLit "X")] (strLit "dev")
                  (strLit "X")) }) ∧
    lookupA
        (setA [(strLit "master", strLit "X")] (strLit "dev") (strLit "X"))
        (strLit "dev")
      = some (strLit "X") :=
  ⟨((c4_branchCreateForkRule stDangling (strLit "a.db") (strLit "master")
      (strLit "dev") [(strLit "master", strLit "X")] (by decide) (by decide)
      (by decide) (by decide) rfl).2.2 (strLit "X") (by decide)
      (by decide)).1,
   ((c4_branchCreateForkRule stDangling (strLit "a.db") (strLit "master")
      (strLit "dev") [(strLit "master", strLit "X")] (by decide) (by decide)
      (by decide) (by decide) rfl).2.2 (strLit "X") (by decide)
      (by decide)).2.2⟩

/-! ## Claim C8 -/

/-- C8 (refuted by the code): an upload with a database name (and any
message situation — the handler never reads a message at all) but no branch
header is rejected with 400: the sanity check requires the branch header,
making the subsequent "default to master" assignment unreachable. -/
theorem c8_uploadRejectsMissingBranch :
    dbUpload hashId oksAll
        { dbName := strLit "a.db", branch := [], body := strLit "x", now := 0 }
        ({} : Storage)
      = (.badRequest, {}, []) ∧
    (∀ hash oks r st, r.branch = [] →
        dbUpload hash oks r st = (.badRequest, st, [])) := by
  constructor
  · decide
  · intro hash oks r st h
    unfold dbUpload
    simp [h]

/-- Witness for `c8_uploadRejectsMissingBranch` at a second concrete
request. -/
theorem c8_uploadRejectsMissingBranch_witness :
    dbUpload hashId oksAll
        { dbName := strLit "b.db", branch := [], body := [], now := 3 }
        ({} : Storage)
      = (.badRequest, {}, []) :=
  c8_uploadRejectsMissingBranch.2 hashId oksAll
    { dbName := strLit "b.db", branch := [], body := [], now := 3 } {} rfl

/-! ## Claim C9 -/

/-- C9 (refuted by the code): the handlers run with no per-database mutual
exclusion, so two concurrent uploads to the same new database/branch may
both read the branch table before either writes.  In that interleaving both
report success, yet the final head's history contains exactly ONE commit:
the first upload's distinct commit was clobbered (lost update), where the
claim promises N = 2 chained commits. -/
theorem c9_interleavedUploadsLoseUpdate :
    c9out1.1 = .created ∧ c9out2.1 = .created ∧
    c9commit1 ≠ c9commit2 ∧
    c9finalHist = some [c9commit2] ∧
    c9commit2.Parent = [] := by decide

/-! ## Claim C5 -/

theorem storeDatabase_ok_frame (hash : GoStr → GoStr) (ok : Bool)
    (files : Files) (db : GoStr) (f1 : Files)
    (h : storeDatabase hash ok files db = .ok f1) (k : GoStr)
    (hk : k ≠ hash db) : lookupA f1 k = lookupA files k := by
  unfold storeDatabase at h
  cases hl : lookupA files (hash db) with
  | none =>
    simp [hl] at h
    cases ok with
    | false => simp at h
    | true =>
      simp at h
      rw [← h, lookupA_setA_ne _ _ _ _ hk]
  | some f =>
    simp [hl] at h
    by_cases hsz : db.length = fdSize f
    · simp [hsz] at h
      rw [← h]
    · simp [hsz] at h
      cases ok with
      | false => simp at h
      | true =>
        simp at h
        rw [← h, lookupA_setA_ne _ _ _ _ hk]

theorem storeTree_ok_iff (ok : Bool) (files : Files) (t : dbTree) (f2 : Files) :
    storeTree ok files t = .ok f2 ↔ ok = true ∧ f2 = setA files t.ID (.treeData t) := by
  unfold storeTree
  cases ok <;> simp [eq_comm]

theorem storeCommit_ok_iff (ok : Bool) (files : Files) (c : commit) (f2 : Files) :
    storeCommit ok files c = .ok f2 ↔ ok = true ∧ f2 = setA files c.ID (.commitData c) := by
  unfold storeCommit
  cases ok <;> simp [eq_comm]

theorem storeBranches_ok_iff (ok : Bool) (st : Storage) (db : GoStr)
    (bs : BranchTable) (st' : Storage) :
    storeBranches ok st db bs = .ok st' ↔
      ok = true ∧ st' = { st with meta := setA st.meta db bs } := by
  unfold storeBranches
  cases ok <;> simp [eq_comm]

theorem uploadPersist_spec (hash : GoStr → GoStr) (oks : WStep → Bool)
    (r : UploadRequest) (st : Storage) (c : commit) (bs : BranchTable) :
    (∃ n, (uploadPersist hash oks r st c bs).2.2
        = List.take n [WStep.wBlob, WStep.wTree, WStep.wCommit, WStep.wBranches]) ∧
    ((uploadPersist hash oks r st c bs).1 = .created →
        (uploadPersist hash oks r st c bs).2.2
          = [WStep.wBlob, WStep.wTree, WStep.wCommit, WStep.wBranches]) ∧
    ((uploadPersist hash oks r st c bs).1 ≠ .created →
        (uploadPersist hash oks r st c bs).2.1.meta = st.meta) := by
  unfold uploadPersist
  cases h1 : storeDatabase hash (oks .wBlob) st.files r.body with
  | error e => exact ⟨⟨1, rfl⟩, by simp, by simp⟩
  | ok f1 =>
    dsimp only
    cases h2 : storeTree (oks .wTree) f1 (uploadTree hash r) with
    | error e => exact ⟨⟨2, rfl⟩, by simp, by simp⟩
    | ok f2 =>
      dsimp only
      cases h3 : storeCommit (oks .wCommit) f2 c with
      | error e => exact ⟨⟨3, rfl⟩, by simp, by simp⟩
      | ok f3 =>
        dsimp only
        cases h4 : storeBranches (oks .wBranches) { st with files := f3 }
            r.dbName bs with
        | error e => exact ⟨⟨4, rfl⟩, by simp, by simp⟩
        | ok st' => exact ⟨⟨4, rfl⟩, by simp, by simp⟩

/-- C5: for every digest function, write-failure pattern, request and
state: the persistence steps an upload attempts are always an initial
segment of durable blob → durable tree → durable commit → branch-head
update (so the head update is last); a successful upload attempted all four
in that order; and any upload that does not succeed leaves the entire
branch-table area untouched — the head update is the sole observable commit
point. -/
theorem c5_persistOrderAndCommitPoint (hash : GoStr → GoStr)
    (oks : WStep → Bool) (r : UploadRequest) (st : Storage) :
    (∃ n, (dbUpload hash oks r st).2.2
        = List.take n [WStep.wBlob, WStep.wTree, WStep.wCommit, WStep.wBranches]) ∧
    ((dbUpload hash oks r st).1 = .created →
        (dbUpload hash oks r st).2.2
          = [WStep.wBlob, WStep.wTree, WStep.wCommit, WStep.wBranches]) ∧
    ((dbUpload hash oks r st).1 ≠ .created →
        (dbUpload hash oks r st).2.1.meta = st.meta) := by
  unfold dbUpload
  by_cases h0 : r.dbName = [] ∨ r.branch = []
  · simp only [if_pos h0]
    exact ⟨⟨0, rfl⟩, by simp, by simp⟩
  · simp only [if_neg h0]
    cases hc : uploadCompute hash
        { r with branch := if r.branch = [] then strLit "master" else r.branch }
        st with
    | error e => exact ⟨⟨0, rfl⟩, by simp, by simp⟩
    | ok pr =>
      obtain ⟨c, bs⟩ := pr
      exact uploadPersist_spec hash oks _ st c bs

/-- Witness for `c5_persistOrderAndCommitPoint`: a concrete successful
upload attempted exactly the four steps in order. -/
theorem c5_persistOrderAndCommitPoint_witness :
    (dbUpload hashId oksAll uploadReq1 ({} : Storage)).2.2
      = [WStep.wBlob, WStep.wTree, WStep.wCommit, WStep.wBranches] :=
  (c5_persistOrderAndCommitPoint hashId oksAll uploadReq1 {}).2.1 (by decide)

/-! ## Claim C10 -/

theorem uploadPersist_created_spec (hash : GoStr → GoStr) (oks : WStep → Bool)
    (r : UploadRequest) (st : Storage) (c : commit) (bs : BranchTable) :
    (uploadPersist hash oks r st c bs).1 = .created →
      (uploadPersist hash oks r st c bs).2.1.meta = setA st.meta r.dbName bs ∧
      lookupA (uploadPersist hash oks r st c bs).2.1.files c.ID
        = some (.commitData c) ∧
      (∀ k, k ≠ hash r.body → k ≠ (uploadTree hash r).ID → k ≠ c.ID →
          lookupA (uploadPersist hash oks r st c bs).2.1.files k
            = lookupA st.files k) := by
  unfold uploadPersist
  cases h1 : storeDatabase hash (oks .wBlob) st.files r.body with
  | error e => simp
  | ok f1 =>
    dsimp only
    cases h2 : storeTree (oks .wTree) f1 (uploadTree hash r) with
    | error e => simp
    | ok f2 =>
      dsimp only
      cases h3 : storeCommit (oks .wCommit) f2 c with
      | error e => simp
      | ok f3 =>
        dsimp only
        cases h4 : storeBranches (oks .wBranches) { st with files := f3 }
            r.dbName bs with
        | error e => simp
        | ok st' =>
          intro hcr
          obtain ⟨-, hst'⟩ := (storeBranches_ok_iff _ _ _ _ _).mp h4
          obtain ⟨-, hf2⟩ := (storeTree_ok_iff _ _ _ _).mp h2
          obtain ⟨-, hf3⟩ := (storeCommit_ok_iff _ _ _ _).mp h3
          subst hst' hf2 hf3
          refine ⟨rfl, lookupA_setA_self _ _ _, ?_⟩
          intro k hk1 hk2 hk3
          dsimp only
          rw [lookupA_setA_ne _ _ _ _ hk3, lookupA_setA_ne _ _ _ _ hk2]
          exact storeDatabase_ok_frame hash (oks .wBlob) st.files r.body f1
            h1 k hk1

/-- C10: a successful upload whose database name is not the name of any
file stored under `files/` (the area `dbExists` consults and uploads never
write the database name into) takes the new-database path: the minted
commit has no parent, the branch table written for that database is exactly
the one-entry mapping for the uploaded branch (any previously stored heads
for it are discarded), and the `files/` area changes at most at the blob
digest, tree id and commit id. -/
theorem c10_newDatabasePathDiscardsTable (hash : GoStr → GoStr)
    (oks : WStep → Bool) (r : UploadRequest) (st : Storage)
    (habsent : lookupA st.files r.dbName = none)
    (hcreated : (dbUpload hash oks r st).1 = .created) :
    getBranches (dbUpload hash oks r st).2.1 r.dbName
        = some [(r.branch, createCommitID hash (uploadBaseCommit hash r))] ∧
    getCommit (dbUpload hash oks r st).2.1.files
        (createCommitID hash (uploadBaseCommit hash r))
      = some { uploadBaseCommit hash r with
                 ID := createCommitID hash (uploadBaseCommit hash r) } ∧
    commit.Parent { uploadBaseCommit hash r with
        ID := createCommitID hash (uploadBaseCommit hash r) } = [] ∧
    (∀ k, k ≠ hash r.body → k ≠ (uploadTree hash r).ID →
        k ≠ createCommitID hash (uploadBaseCommit hash r) →
        lookupA (dbUpload hash oks r st).2.1.files k = lookupA st.files k) := by
  by_cases h0 : r.dbName = [] ∨ r.branch = []
  · exfalso
    unfold dbUpload at hcreated
    simp [h0] at hcreated
  · have hbr : r.branch ≠ [] := fun h => h0 (Or.inr h)
    have hex : dbExists st.files r.dbName = false := by
      unfold dbExists
      rw [habsent]
      rfl
    have hcomp : uploadCompute hash r st
        = .ok ({ uploadBaseCommit hash r with
                   ID := createCommitID hash (uploadBaseCommit hash r) },
               [(r.branch,
                 createCommitID hash (uploadBaseCommit hash r))]) := by
      unfold uploadCompute
      rw [hex]
      rfl
    have hr' : ({ r with branch := if r.branch = [] then strLit "master"
                    else r.branch } : UploadRequest) = r := by
      rw [if_neg hbr]
    unfold dbUpload at hcreated ⊢
    rw [if_neg h0] at hcreated ⊢
    simp only [hr', hcomp] at hcreated ⊢
    obtain ⟨hmeta, hcommit, hframe⟩ :=
      uploadPersist_created_spec hash oks r st
        { uploadBaseCommit hash r with
            ID := createCommitID hash (uploadBaseCommit hash r) }
        [(r.branch, createCommitID hash (uploadBaseCommit hash r))] hcreated
    have hid : ({ uploadBaseCommit hash r with
        ID := createCommitID hash (uploadBaseCommit hash r) } : commit).ID
        = createCommitID hash (uploadBaseCommit hash r) := rfl
    refine ⟨?_, ?_, rfl, ?_⟩
    · unfold getBranches
      rw [hmeta]
      exact lookupA_setA_self _ _ _
    · unfold getCommit
      rw [hid] at hcommit
      rw [hcommit]
    · intro k hk1 hk2 hk3
      exact hframe k hk1 hk2 hk3

/-- Witness for `c10_newDatabasePathDiscardsTable`: uploading `a.db` into a
store that already held branch heads for it (but no `files/a.db`) yields a
parentless head and a table holding exactly `master`. -/
theorem c10_newDatabasePathDiscardsTable_witness :
    getBranches (dbUpload hashId oksAll uploadReq1 stPriorMeta).2.1
        (strLit "a.db")
      = some [(strLit "master",
               createCommitID hashId (uploadBaseCommit hashId uploadReq1))] ∧
    commit.Parent { uploadBaseCommit hashId uploadReq1 with
        ID := createCommitID hashId (uploadBaseCommit hashId uploadReq1) }
      = [] :=
  ⟨(c10_newDatabasePathDiscardsTable hashId oksAll uploadReq1 stPriorMeta rfl
      (by decide)).1,
   (c10_newDatabasePathDiscardsTable hashId oksAll uploadReq1 stPriorMeta rfl
      (by decide)).2.2.1⟩

/-! ## Claim C6 -/

theorem chain_ne_nil (files : Files) (c : commit) (hist : List commit)
    (h : Chain files c hist) : hist ≠ [] := by
  cases h <;> simp

theorem getCommit_some_mem (files : Files) (k : GoStr) (cc : commit)
    (h : getCommit files k = some cc) : k ∈ files.map Prod.fst := by
  unfold getCommit at h
  cases hl : lookupA files k with
  | none => rw [hl] at h; exact absurd h (by simp)
  | some fd =>
    cases fd with
    | blob b => rw [hl] at h; exact absurd h (by simp)
    | commitData c => exact lookupA_some_mem_keys files k _ hl
    | treeData t => rw [hl] at h; exact absurd h (by simp)

theorem chainKeys_cons (c : commit) (rest : List commit) (h : rest ≠ []) :
    chainKeys (c :: rest) = c.Parent :: chainKeys rest := by
  cases rest with
  | nil => exact absurd rfl h
  | cons r0 rest' => rfl

theorem chain_unique (files : Files) :
    ∀ (c : commit) (h1 h2 : List commit),
      Chain files c h1 → Chain files c h2 → h1 = h2 := by
  intro c h1 h2 hc1
  induction hc1 generalizing h2 with
  | root c hp =>
    intro hc2
    cases hc2 with
    | root => rfl
    | step _ c' rest hp' hg' hch' => exact absurd hp hp'
  | step c c' rest hp hg hch ih =>
    intro hc2
    cases hc2 with
    | root _ hp' => exact absurd hp' hp
    | step _ c'' rest' hp' hg' hch' =>
      have hcc : c'' = c' := by
        rw [hg] at hg'
        exact (Option.some.inj hg').symm
      subst hcc
      rw [ih rest' hch']

theorem chain_key_suffix (files : Files) :
    ∀ (c : commit) (hist : List commit), Chain files c hist →
      ∀ k ∈ chainKeys hist,
        ∃ (cc : commit) (h' : List commit), getCommit files k = some cc ∧
          Chain files cc h' ∧ h'.length < hist.length := by
  intro c hist hch
  induction hch with
  | root c hp => intro k hk; simp [chainKeys] at hk
  | step c c' rest hp hg hch ih =>
    intro k hk
    rw [chainKeys_cons c rest (chain_ne_nil files c' rest hch)] at hk
    rcases List.mem_cons.mp hk with rfl | hk'
    · exact ⟨c', rest, hg, hch, by simp⟩
    · obtain ⟨cc, h', hgc, hch', hlt⟩ := ih k hk'
      refine ⟨cc, h', hgc, hch', ?_⟩
      simp only [List.length_cons]
      omega

theorem chain_chainKeys_nodup (files : Files) :
    ∀ (c : commit) (hist : List commit), Chain files c hist →
      (chainKeys hist).Nodup := by
  intro c hist hch
  induction hch with
  | root c hp => simp [chainKeys]
  | step c c' rest hp hg hch ih =>
    rw [chainKeys_cons c rest (chain_ne_nil files c' rest hch)]
    refine List.nodup_cons.mpr ⟨?_, ih⟩
    intro hmem
    obtain ⟨cc, h', hgc, hch', hlt⟩ :=
      chain_key_suffix files c' rest hch c.Parent hmem
    have hcc : cc = c' := by
      rw [hg] at hgc
      exact (Option.some.inj hgc).symm
    rw [hcc] at hch'
    rw [chain_unique files c' h' rest hch' hch] at hlt
    exact lt_irrefl _ hlt

theorem chainKeys_length (hist : List commit) :
    (chainKeys hist).length = hist.length - 1 := by
  induction hist with
  | nil => simp [chainKeys]
  | cons c rest ih =>
    cases rest with
    | nil => simp [chainKeys]
    | cons r0 rest' =>
      rw [chainKeys_cons c (r0 :: rest') (by simp)]
      simp only [List.length_cons] at ih ⊢
      omega

theorem chain_length_le (files : Files) (c : commit) (hist : List commit)
    (hch : Chain files c hist) : hist.length ≤ files.length + 1 := by
  have hnd := chain_chainKeys_nodup files c hist hch
  have hsub : chainKeys hist ⊆ files.map Prod.fst := by
    intro k hk
    obtain ⟨cc, h', hgc, -, -⟩ := chain_key_suffix files c hist hch k hk
    exact getCommit_some_mem files k cc hgc
  have hle : (chainKeys hist).length ≤ (files.map Prod.fst).length :=
    (List.subperm_of_subset hnd hsub).length_le
  rw [List.length_map] at hle
  rw [chainKeys_length] at hle
  have := chain_ne_nil files c hist hch
  have hpos : 0 < hist.length := List.length_pos.mpr this
  omega

theorem walkHistory_sound (files : Files) :
    ∀ (fuel : Nat) (c : commit) (hist : List commit),
      walkHistory files fuel c = .ok hist → Chain files c hist := by
  intro fuel
  induction fuel with
  | zero =>
    intro c hist h
    unfold walkHistory at h
    by_cases hp : c.Parent = []
    · rw [if_pos hp] at h
      cases h
      exact Chain.root c hp
    · rw [if_neg hp] at h
      exact Except.noConfusion h
  | succ fuel ih =>
    intro c hist h
    unfold walkHistory at h
    by_cases hp : c.Parent = []
    · rw [if_pos hp] at h
      cases h
      exact Chain.root c hp
    · rw [if_neg hp] at h
      dsimp only at h
      cases hg : getCommit files c.Parent with
      | none =>
        rw [hg] at h
        exact Except.noConfusion h
      | some c' =>
        rw [hg] at h
        dsimp only at h
        cases hw : walkHistory files fuel c' with
        | error s =>
          rw [hw] at h
          exact Except.noConfusion h
        | ok rest =>
          rw [hw] at h
          have : c :: rest = hist := Except.ok.inj h
          subst this
          exact Chain.step c c' rest hp hg (ih c' rest hw)

theorem walkHistory_complete (files : Files) :
    ∀ (c : commit) (hist : List commit), Chain files c hist →
      ∀ fuel, hist.length ≤ fuel + 1 → walkHistory files fuel c = .ok hist := by
  intro c hist hch
  induction hch with
  | root c hp =>
    intro fuel hf
    unfold walkHistory
    rw [if_pos hp]
  | step c c' rest hp hg hch ih =>
    intro fuel hf
    have hrest : 1 ≤ rest.length :=
      List.length_pos.mpr (chain_ne_nil files c' rest hch)
    simp only [List.length_cons] at hf
    cases fuel with
    | zero => omega
    | succ fuel' =>
      unfold walkHistory
      rw [if_neg hp]
      dsimp only
      rw [hg]
      dsimp only
      rw [ih fuel' (by omega)]
      rfl

/-- C6 (counterexample): a request whose branch head references a commit id
absent from the object store fails with 500 Internal, not with the NotFound
the claim requires. -/
theorem c6_counterexample :
    branchHistory (strLit "a.db") (strLit "master") stDangling
      = some .internalError ∧
    some HistoryResult.internalError ≠ some HistoryResult.notFound := by
  decide

/-- C6 (amended): for a branch-history request with non-empty names, the
handler answers NotFound when the database fails the `dbExists` check or
the branch is absent from the table; a missing commit — the head itself or
any commit referenced along the parent chain — yields Internal (500), not
NotFound; and when the head's parent chain is intact the result is exactly
the head-first chain obtained by following parent links to a parentless
commit. -/
theorem c6_branchHistorySpec (st : Storage) (dbName branchName : GoStr)
    (hdb : dbName ≠ []) (hbr : branchName ≠ []) :
    (dbExists st.files dbName = false →
        branchHistory dbName branchName st = some .notFound) ∧
    (∀ tbl, dbExists st.files dbName = true →
        getBranches st dbName = some tbl → lookupA tbl branchName = none →
        branchHistory dbName branchName st = some .notFound) ∧
    (∀ tbl id, dbExists st.files dbName = true →
        getBranches st dbName = some tbl → lookupA tbl branchName = some id →
        getCommit st.files id = none →
        branchHistory dbName branchName st = some .internalError) ∧
    (∀ tbl id c, dbExists st.files dbName = true →
        getBranches st dbName = some tbl → lookupA tbl branchName = some id →
        getCommit st.files id = some c →
        walkHistory st.files (st.files.length + 1) c = .error .missingCommit →
        branchHistory dbName branchName st = some .internalError) ∧
    (∀ tbl id c hist, dbExists st.files dbName = true →
        getBranches st dbName = some tbl → lookupA tbl branchName = some id →
        getCommit st.files id = some c → Chain st.files c hist →
        branchHistory dbName branchName st = some (.ok hist)) := by
  have h0 : ¬(dbName = [] ∨ branchName = []) := by
    rintro (h | h)
    exacts [hdb h, hbr h]
  refine ⟨?_, ?_, ?_, ?_, ?_⟩
  · intro hex
    simp [branchHistory, h0, hex]
  · intro tbl hex htbl hmiss
    simp [branchHistory, h0, hex, htbl, hmiss]
  · intro tbl id hex htbl hid hc
    simp [branchHistory, h0, hex, htbl, hid, hc]
  · intro tbl id c hex htbl hid hc hw
    simp [branchHistory, h0, hex, htbl, hid, hc, hw]
  · intro tbl id c hist hex htbl hid hc hch
    have hw : walkHistory st.files (st.files.length + 1) c = .ok hist :=
      walkHistory_complete st.files c hist hch (st.files.length + 1)
        (by have := chain_length_le st.files c hist hch; omega)
    simp [branchHistory, h0, hex, htbl, hid, hc, hw]

/-- Witness for `c6_branchHistorySpec`: in a healthy store the history of
`master` is the single parentless head commit. -/
theorem c6_branchHistorySpec_witness :
    branchHistory (strLit "a.db") (strLit "master") stHealthy
      = some (.ok [c6Commit]) :=
  (c6_branchHistorySpec stHealthy (strLit "a.db") (strLit "master")
      (by decide) (by decide)).2.2.2.2 [(strLit "master", strLit "c1")]
    (strLit "c1") c6Commit [c6Commit] (by decide) (by decide) (by decide)
    (by decide) (Chain.root c6Commit rfl)

/-! ## Claim C7 -/

theorem charToDigit_ofNat (d : Nat) (hd : d < 10) :
    charToDigit? (Char.ofNat (48 + d)) = some d := by
  interval_cases d <;> decide

theorem digitChar_ne_nul (d : Nat) (hd : d < 10) :
    Char.ofNat (48 + d) ≠ nulChar := by
  interval_cases d <;> decide

theorem digitChar_ne_newline (d : Nat) (hd : d < 10) :
    Char.ofNat (48 + d) ≠ '\n' := by
  interval_cases d <;> decide

theorem natDigitsAux_mem (fuel : Nat) :
    ∀ (n : Nat) (c : Char), c ∈ natDigitsAux fuel n →
      ∃ d, d < 10 ∧ c = Char.ofNat (48 + d) := by
  induction fuel with
  | zero =>
    intro n c hc
    simp [natDigitsAux] at hc
    exact ⟨n % 10, Nat.mod_lt _ (by omega), hc⟩
  | succ fuel ih =>
    intro n c hc
    unfold natDigitsAux at hc
    by_cases h : n < 10
    · rw [if_pos h] at hc
      simp at hc
      exact ⟨n, h, hc⟩
    · rw [if_neg h] at hc
      rcases List.mem_append.mp hc with hc | hc
      · exact ih (n / 10) c hc
      · simp at hc
        exact ⟨n % 10, Nat.mod_lt _ (by omega), hc⟩

theorem nul_not_mem_natDigits (n : Nat) : nulChar ∉ natDigits n := by
  intro hmem
  obtain ⟨d, hd, hc⟩ := natDigitsAux_mem n n nulChar hmem
  exact digitChar_ne_nul d hd hc.symm

theorem newline_not_mem_natDigits (n : Nat) : '\n' ∉ natDigits n := by
  intro hmem
  obtain ⟨d, hd, hc⟩ := natDigitsAux_mem n n '\n' hmem
  exact digitChar_ne_newline d hd hc.symm

theorem natDigitsAux_ne_nil (fuel n : Nat) : natDigitsAux fuel n ≠ [] := by
  cases fuel with
  | zero => simp [natDigitsAux]
  | succ fuel =>
    unfold natDigitsAux
    by_cases h : n < 10
    · simp [h]
    · simp [h]

theorem foldl_digits_natDigitsAux (fuel : Nat) :
    ∀ (n a : Nat), n ≤ fuel →
      (natDigitsAux fuel n).foldl
          (fun acc ch => acc.bind (fun x =>
            (charToDigit? ch).map (fun d => 10 * x + d))) (some a)
        = some (a * 10 ^ (natDigitsAux fuel n).length + n) := by
  induction fuel with
  | zero =>
    intro n a hn
    have hn0 : n = 0 := by omega
    subst hn0
    simp [natDigitsAux, charToDigit?]
    ring
  | succ fuel ih =>
    intro n a hn
    by_cases h : n < 10
    · unfold natDigitsAux
      rw [if_pos h]
      simp [charToDigit_ofNat n h]
      ring
    · unfold natDigitsAux
      rw [if_neg h]
      rw [List.foldl_append]
      have hdiv : n / 10 ≤ fuel := by
        have h1 : n / 10 < n := Nat.div_lt_self (by omega) (by omega)
        omega
      rw [ih (n / 10) a hdiv]
      simp [charToDigit_ofNat (n % 10) (Nat.mod_lt _ (by omega))]
      calc 10 * (a * 10 ^ (natDigitsAux fuel (n / 10)).length + n / 10)
            + n % 10
          = a * (10 ^ (natDigitsAux fuel (n / 10)).length * 10)
              + (10 * (n / 10) + n % 10) := by ring
        _ = a * 10 ^ ((natDigitsAux fuel (n / 10)).length + 1) + n := by
              rw [Nat.div_add_mod, pow_succ]

theorem digitsToNat_natDigits (n : Nat) : digitsToNat? (natDigits n) = some n := by
  obtain ⟨a, l, hd⟩ := List.exists_cons_of_ne_nil (natDigitsAux_ne_nil n n)
  unfold digitsToNat? natDigits
  rw [hd]
  dsimp only
  rw [← hd]
  rw [foldl_digits_natDigitsAux n n 0 (le_refl n)]
  simp

theorem splitAtChar_append (sep : Char) (xs ys : GoStr) (h : sep ∉ xs) :
    splitAtChar sep (xs ++ sep :: ys) = some (xs, ys) := by
  induction xs with
  | nil => simp [splitAtChar]
  | cons a l ih =>
    have ha : ¬(a = sep) := fun he => h (he ▸ List.mem_cons_self a l)
    have h' : sep ∉ l := fun hm => h (List.mem_cons_of_mem _ hm)
    simp only [List.cons_append, splitAtChar, if_neg ha]
    rw [List.append_eq, ih h']
    rfl

theorem serializeTreeEntry_ne_nil (e : dbTreeEntry) :
    serializeTreeEntry e ≠ [] := by
  unfold serializeTreeEntry
  simp

theorem parseTreeEntry_serialize (e : dbTreeEntry) (rest : GoStr)
    (he : entryNulFree e) :
    parseTreeEntry (serializeTreeEntry e ++ rest) = some (e, rest) := by
  obtain ⟨h1, h2, h3, h4⟩ := he
  unfold parseTreeEntry serializeTreeEntry
  simp only [List.append_assoc, List.cons_append, List.nil_append,
    List.singleton_append]
  rw [splitAtChar_append nulChar _ _ h1]
  simp only [Option.bind_eq_bind, Option.some_bind]
  rw [splitAtChar_append nulChar _ _ h2]
  simp only [Option.some_bind]
  rw [splitAtChar_append nulChar _ _ h3]
  simp only [Option.some_bind]
  rw [splitAtChar_append nulChar _ _ h4]
  simp only [Option.some_bind]
  rw [splitAtChar_append '\n' _ _ (newline_not_mem_natDigits e.Size)]
  simp only [Option.some_bind]
  rw [digitsToNat_natDigits]
  simp only [Option.some_bind]
  rfl

theorem parseTreeEntries_serialize (es : List dbTreeEntry) :
    ∀ fuel, es.length ≤ fuel → (∀ e ∈ es, entryNulFree e) →
      parseTreeEntries fuel (serializeTreeEntries es) = some es := by
  induction es with
  | nil =>
    intro fuel _ _
    cases fuel <;> simp [parseTreeEntries, serializeTreeEntries]
  | cons e es ih =>
    intro fuel hf hnf
    cases fuel with
    | zero => simp at hf
    | succ fuel =>
      have hser : serializeTreeEntries (e :: es)
          = serializeTreeEntry e ++ serializeTreeEntries es := by
        simp [serializeTreeEntries]
      have hne : serializeTreeEntry e ++ serializeTreeEntries es ≠ [] := by
        intro hc
        exact serializeTreeEntry_ne_nil e (List.append_eq_nil.mp hc).1
      unfold parseTreeEntries
      rw [hser, if_neg hne,
        parseTreeEntry_serialize e _ (hnf e (List.mem_cons_self e es))]
      dsimp only
      rw [ih fuel (by simp at hf; omega)
        (fun x hx => hnf x (List.mem_cons_of_mem _ hx))]
      rfl

theorem serializeTreeEntries_inj (es1 es2 : List dbTreeEntry)
    (h1 : ∀ e ∈ es1, entryNulFree e) (h2 : ∀ e ∈ es2, entryNulFree e)
    (heq : serializeTreeEntries es1 = serializeTreeEntries es2) :
    es1 = es2 := by
  have p1 := parseTreeEntries_serialize es1 (max es1.length es2.length)
    (le_max_left _ _) h1
  have p2 := parseTreeEntries_serialize es2 (max es1.length es2.length)
    (le_max_right _ _) h2
  rw [heq, p2] at p1
  exact (Option.some.inj p1).symm

/-- C7 (counterexample): shifting a NUL byte across the field boundary
between `Sha256` and `Name` gives two semantically different single-entry
sequences with identical serialized bytes — and hence identical tree
identifiers for any digest, here exhibited at the concrete digest
`hashId`. -/
theorem c7_counterexample :
    treeEntryShift1 ≠ treeEntryShift2 ∧
    serializeTreeEntries [treeEntryShift1]
      = serializeTreeEntries [treeEntryShift2] ∧
    createDBTreeID hashId [treeEntryShift1]
      = createDBTreeID hashId [treeEntryShift2] := by decide

/-- C7 (amended): the tree identifier is the digest of the order-preserving
entry serialization, so identical entry sequences always yield the same
identifier; and on entry sequences whose string fields are free of the NUL
separator byte, the serialization is unambiguous: different sequences never
produce the same serialized bytes. -/
theorem c7_treeSerializationUnambiguous (hash : GoStr → GoStr)
    (es1 es2 : List dbTreeEntry)
    (h1 : ∀ e ∈ es1, entryNulFree e) (h2 : ∀ e ∈ es2, entryNulFree e) :
    (es1 = es2 → createDBTreeID hash es1 = createDBTreeID hash es2) ∧
    (es1 ≠ es2 → serializeTreeEntries es1 ≠ serializeTreeEntries es2) := by
  constructor
  · intro h
    rw [h]
  · intro hne heq
    exact hne (serializeTreeEntries_inj es1 es2 h1 h2 heq)

/-- Witness for `c7_treeSerializationUnambiguous`: two concrete NUL-free
entries serialize differently. -/
theorem c7_treeSerializationUnambiguous_witness :
    serializeTreeEntries [treeEntryPlainA]
      ≠ serializeTreeEntries [treeEntryPlainB] :=
  (c7_treeSerializationUnambiguous hashId [treeEntryPlainA] [treeEntryPlainB]
    (by decide) (by decide)).2 (by decide)
